import Mathlib

/-!
Verification of the SABR 2019 opener-vs-starter simulation.

Shallow embedding of `sabr_simulation.py`:

* the Outcome Model `sim_plate_app` (regression-derived event probabilities,
  expected runs created, and the weighted random draw `random.choices`),
* the Game Simulator `sim_game` (27-out loop with the pitcher-rotation
  state machine), and
* the Batch Runner `simulation`.

Real-valued quantities are modelled over `ℝ` (the Python floats are treated
as exact reals).  The stochastic draw of `random.choices` is modelled
explicitly via its bisection algorithm on cumulative weights, driven by a
real number `r ∈ [0,1)` standing for the value returned by `random()`.
Inside the game loop the sequence of drawn outcomes is abstracted as an
arbitrary stream `oracle : ℕ → Outcome` (a sound nondeterministic
over-approximation of the weighted draws: PA number `n+1` resolves to
`oracle n`).
-/

open Classical

/-- The nine mutually exclusive plate-appearance outcomes, in the order of the
`probabilities` dictionary of the source (`k, bb, 1b, 2b, 3b, hr, hbp, e, oip`;
`single`/`double`/`triple` stand for the keys `1b`/`2b`/`3b`). -/
inductive Outcome : Type
  | k | bb | single | double | triple | hr | hbp | e | oip
deriving DecidableEq

/-- A player rate profile: the per-player rate statistics read off one row of
the hitters or pitchers table. -/
structure Profile : Type where
  k_pct : ℝ
  bb_pct : ℝ
  single_pct : ℝ
  double_pct : ℝ
  triple_pct : ℝ
  hr_pct : ℝ
  hbp_pct : ℝ

/-- `LINEAR_WEIGHTS` (source line 6). -/
def LINEAR_WEIGHTS : Outcome → ℝ
  | .k => -0.26
  | .bb => 0.29
  | .single => 0.44
  | .double => 0.74
  | .triple => 1.01
  | .hr => 1.39
  | .hbp => 0.31
  | .e => -0.26
  | .oip => -0.26

/-- `k_pct` computed by `sim_plate_app` (source line 21): note the source
uses the literal base `2.71828`, not `math.exp`. -/
noncomputable def k_pct (hitter pitcher : Profile) : ℝ :=
  (2.71828 : ℝ) ^ (0.9427 * Real.log hitter.k_pct + 0.9254 * Real.log pitcher.k_pct + 1.5268)

/-- `bb_pct` (source line 22). -/
noncomputable def bb_pct (hitter pitcher : Profile) : ℝ :=
  (2.71828 : ℝ) ^ (0.906 * Real.log hitter.bb_pct + 0.8644 * Real.log pitcher.bb_pct + 1.9975)

/-- `single_pct` (source line 23). -/
noncomputable def single_pct (hitter pitcher : Profile) : ℝ :=
  (2.71828 : ℝ) ^ (1.01 * Real.log hitter.single_pct + 1.017 * Real.log pitcher.single_pct + 1.943)

/-- `double_pct` (source line 24): a linear blend, no logarithm. -/
noncomputable def double_pct (hitter pitcher : Profile) : ℝ :=
  0.9206 * hitter.double_pct + 0.95779 * pitcher.double_pct - 0.03968

/-- `triple_pct` (source line 25). -/
noncomputable def triple_pct (hitter pitcher : Profile) : ℝ :=
  (2.71828 : ℝ) ^ (0.8435 * Real.log hitter.triple_pct + 0.8698 * Real.log pitcher.triple_pct + 3.8809)

/-- `hr_pct` (source line 26). -/
noncomputable def hr_pct (hitter pitcher : Profile) : ℝ :=
  (2.71828 : ℝ) ^ (0.9576 * Real.log hitter.hr_pct + 0.9268 * Real.log pitcher.hr_pct + 3.2129)

/-- `hbp_pct` (source line 27). -/
noncomputable def hbp_pct (hitter pitcher : Profile) : ℝ :=
  (2.71828 : ℝ) ^ (0.8761 * Real.log hitter.hbp_pct + 0.7623 * Real.log pitcher.hbp_pct + 2.995)

/-- `e_pct` (source line 28): errors occur on 1.6% of balls in play. -/
noncomputable def e_pct (hitter pitcher : Profile) : ℝ :=
  (1 - (k_pct hitter pitcher + bb_pct hitter pitcher + hbp_pct hitter pitcher)) * 0.016

/-- `oip_pct` (source line 29): out in play is the only remaining outcome. -/
noncomputable def oip_pct (hitter pitcher : Profile) : ℝ :=
  1 - (k_pct hitter pitcher + bb_pct hitter pitcher + single_pct hitter pitcher +
    double_pct hitter pitcher + triple_pct hitter pitcher + hr_pct hitter pitcher +
    hbp_pct hitter pitcher + e_pct hitter pitcher)

/-- The `probabilities` dictionary of `sim_plate_app` (source lines 35 to 36),
as a map from outcome to derived probability. -/
noncomputable def probabilities (hitter pitcher : Profile) : Outcome → ℝ
  | .k => k_pct hitter pitcher
  | .bb => bb_pct hitter pitcher
  | .single => single_pct hitter pitcher
  | .double => double_pct hitter pitcher
  | .triple => triple_pct hitter pitcher
  | .hr => hr_pct hitter pitcher
  | .hbp => hbp_pct hitter pitcher
  | .e => e_pct hitter pitcher
  | .oip => oip_pct hitter pitcher

/-- `list(probabilities.keys())` : the population of the weighted draw, in
dictionary insertion order. -/
def population : List Outcome :=
  [.k, .bb, .single, .double, .triple, .hr, .hbp, .e, .oip]

/-- `list(probabilities.values())` : the weights of the weighted draw, in
dictionary insertion order. -/
noncomputable def weights_list (hitter pitcher : Profile) : List ℝ :=
  [k_pct hitter pitcher, bb_pct hitter pitcher, single_pct hitter pitcher,
   double_pct hitter pitcher, triple_pct hitter pitcher, hr_pct hitter pitcher,
   hbp_pct hitter pitcher, e_pct hitter pitcher, oip_pct hitter pitcher]

/-- `exp_runs_created` (source lines 31-33), with the summands in source
order. -/
noncomputable def exp_runs_created (hitter pitcher : Profile) : ℝ :=
  LINEAR_WEIGHTS .bb * bb_pct hitter pitcher + LINEAR_WEIGHTS .single * single_pct hitter pitcher +
  LINEAR_WEIGHTS .double * double_pct hitter pitcher +
  LINEAR_WEIGHTS .triple * triple_pct hitter pitcher + LINEAR_WEIGHTS .hr * hr_pct hitter pitcher +
  LINEAR_WEIGHTS .hbp * hbp_pct hitter pitcher + LINEAR_WEIGHTS .k * k_pct hitter pitcher +
  LINEAR_WEIGHTS .e * e_pct hitter pitcher + LINEAR_WEIGHTS .oip * oip_pct hitter pitcher

/-- The loop of CPython's `bisect.bisect_right` (`while lo < hi: mid = (lo+hi)//2;
if x < a[mid]: hi = mid else: lo = mid+1`), written with an explicit fuel
argument; fuel `hi - lo` always suffices. -/
noncomputable def bisect_loop (a : ℕ → ℝ) (x : ℝ) : ℕ → ℕ → ℕ → ℕ
  | 0, lo, _ => lo
  | fuel + 1, lo, hi =>
    if lo < hi then
      if x < a ((lo + hi) / 2) then bisect_loop a x fuel lo ((lo + hi) / 2)
      else bisect_loop a x fuel ((lo + hi) / 2 + 1) hi
    else lo

/-- `bisect.bisect_right a x lo hi` as used by `random.choices`. -/
noncomputable def bisect_right (a : ℕ → ℝ) (x : ℝ) (lo hi : ℕ) : ℕ :=
  bisect_loop a x (hi - lo) lo hi

/-- Cumulative weights `list(_accumulate(weights))` of `random.choices`,
as a function of the index: `cum_weights ws i = ws[0] + ... + ws[i]`. -/
noncomputable def cum_weights (ws : List ℝ) (i : ℕ) : ℝ :=
  (ws.take (i + 1)).sum

/-- CPython's `random.choices(population, weights, k=1)[0]`, driven by a real
`r ∈ [0,1)` standing for `random()`.  The guard `total <= 0` raises
`ValueError` in CPython, modelled as `none`; an out-of-range index access is
likewise `none`. -/
noncomputable def random_choices (pop : List Outcome) (ws : List ℝ) (r : ℝ) : Option Outcome :=
  let total := cum_weights ws (ws.length - 1)
  if total ≤ 0 then none
  else pop.get? (bisect_right (cum_weights ws) (r * total) 0 (pop.length - 1))

/-- `sim_plate_app` (source lines 8-40): returns the simulated outcome of the
weighted draw together with the expected runs created. -/
noncomputable def sim_plate_app (hitter pitcher : Profile) (r : ℝ) : Option Outcome × ℝ :=
  (random_choices population (weights_list hitter pitcher) r, exp_runs_created hitter pitcher)

/-- Modelled from the spec: the spec states the log-linear categories are
derived as `exp(a·ln(hitter_rate) + b·ln(pitcher_rate) + c)`, i.e. with the
natural exponential as base; this is the spec's version of `k_pct`, to be
compared with the source's. -/
noncomputable def k_pct_spec (hitter pitcher : Profile) : ℝ :=
  Real.exp (0.9427 * Real.log hitter.k_pct + 0.9254 * Real.log pitcher.k_pct + 1.5268)

/-- The log-linear regression template actually used by the source: base
`2.71828` raised to `a·ln(hitter_rate) + b·ln(pitcher_rate) + c`. -/
noncomputable def loglinear (a b c hrate prate : ℝ) : ℝ :=
  (2.71828 : ℝ) ^ (a * Real.log hrate + b * Real.log prate + c)

/-- A profile with every rate equal to 1 (all rates strictly positive);
used as concrete input for witnesses and counterexamples. -/
noncomputable def onesProfile : Profile :=
  ⟨1, 1, 1, 1, 1, 1, 1⟩

/-- The mutable scalar state of one `sim_game` loop (source lines 60-77),
together with the plate-appearance indicator grid
`sim_pa_per_hitter_per_inning` (an integer 0/1 grid in the source, indexed
by row `inning - 1` and column `position_in_order`). -/
structure GState : Type where
  outs : ℕ
  total_plate_apps : ℕ
  current_pitcher : ℕ
  position_in_order : ℕ
  outs_at_pitching_change : ℕ
  sim_pa_per_hitter_per_inning : ℕ → ℕ → ℕ

/-- Whether an outcome records an out (`if simulated_outcome in ['k', 'oip']`,
source line 99). -/
def isOut (o : Outcome) : Prop :=
  o = Outcome.k ∨ o = Outcome.oip

instance (o : Outcome) : Decidable (isOut o) := by
  unfold isOut
  infer_instance

/-- One iteration of the `sim_game` while-loop (source lines 69-105) on the
scalar state, with the drawn outcome supplied as `o`:
increment `total_plate_apps`, advance the batting slot, mark the
appearance-grid cell, run the pitcher-rotation policy, and record the out. -/
def coreStep (using_opener : Bool) (o : Outcome) (g : GState) : GState :=
  let total_plate_apps := g.total_plate_apps + 1
  let position_in_order := g.position_in_order % 9 + 1
  let inning := g.outs / 3 + 1
  let paGrid := fun i j =>
    if i = inning - 1 ∧ j = position_in_order then 1
    else g.sim_pa_per_hitter_per_inning i j
  let pitcherMarker : ℕ × ℕ :=
    if using_opener then
      let c1 := if g.outs = 3 ∧ g.current_pitcher = 1 then 2 else g.current_pitcher
      let c2 := if total_plate_apps > 27 ∧ c1 = 2 then 3 else c1
      (c2, g.outs_at_pitching_change)
    else
      let cm : ℕ × ℕ :=
        if total_plate_apps > 24 ∧ g.current_pitcher = 2 then (1, g.outs)
        else (g.current_pitcher, g.outs_at_pitching_change)
      let c2 := if g.outs = cm.2 + 3 ∧ cm.1 = 1 then 3 else cm.1
      (c2, cm.2)
  let outs := if isOut o then g.outs + 1 else g.outs
  ⟨outs, total_plate_apps, pitcherMarker.1, position_in_order, pitcherMarker.2, paGrid⟩

/-- The initial game state (source lines 56-68): `current_pitcher` is the
starter (2) unless `using_opener`, in which case the opener (1). -/
def initState (using_opener : Bool) : GState :=
  ⟨0, 0, if using_opener then 1 else 2, 0, 0, fun _ _ => 0⟩

/-- The guarded loop step: one while-loop iteration when `outs < 27`
(PA number `total_plate_apps + 1` resolves to `oracle total_plate_apps`),
the identity once the game is over. -/
def gstep (using_opener : Bool) (oracle : ℕ → Outcome) (g : GState) : GState :=
  if g.outs < 27 then coreStep using_opener (oracle g.total_plate_apps) g else g

/-- The scalar game state after `n` loop iterations. -/
def coreG (using_opener : Bool) (oracle : ℕ → Outcome) : ℕ → GState
  | 0 => initState using_opener
  | n + 1 => gstep using_opener oracle (coreG using_opener oracle n)

/-- The number of out-producing outcomes among the first `n` entries of the
outcome stream. -/
def countOuts (oracle : ℕ → Outcome) (n : ℕ) : ℕ :=
  ((Finset.range n).filter fun i => isOut (oracle i)).card

/-- A run of `sim_game` terminates when the loop guard `outs < 27` fails. -/
def terminates (using_opener : Bool) (oracle : ℕ → Outcome) : Prop :=
  ∃ n, (coreG using_opener oracle n).outs = 27

/-- The bullpen (pitcher role 3) becomes the active pitcher at some point of
the run. -/
def entersBullpen (using_opener : Bool) (oracle : ℕ → Outcome) : Prop :=
  ∃ n, (coreG using_opener oracle n).current_pitcher = 3

/-- The full state of one `sim_game` loop: the scalar state plus the
real-valued runs grid `sim_rc_per_hitter_per_inning`. -/
structure FullState : Type where
  core : GState
  sim_rc_per_hitter_per_inning : ℕ → ℕ → ℝ

/-- One full while-loop iteration (source lines 69-105): the scalar part is
`coreStep`; the runs grid adds `exp_runs_created` of the current hitter and
pitcher at cell `(inning - 1, position_in_order)` (source line 105). -/
noncomputable def stepFull (using_opener : Bool) (hitters pitchers : ℕ → Profile)
    (o : Outcome) (f : FullState) : FullState :=
  let inning := f.core.outs / 3 + 1
  let core := coreStep using_opener o f.core
  let hitter := hitters (core.position_in_order - 1)
  let pitcher := pitchers (core.current_pitcher - 1)
  let rcGrid := fun i j =>
    if i = inning - 1 ∧ j = core.position_in_order then
      f.sim_rc_per_hitter_per_inning i j + exp_runs_created hitter pitcher
    else f.sim_rc_per_hitter_per_inning i j
  ⟨core, rcGrid⟩

/-- The guarded full loop step. -/
noncomputable def gstepFull (using_opener : Bool) (hitters pitchers : ℕ → Profile)
    (oracle : ℕ → Outcome) (f : FullState) : FullState :=
  if f.core.outs < 27 then stepFull using_opener hitters pitchers (oracle f.core.total_plate_apps) f
  else f

/-- The full game state after `n` loop iterations. -/
noncomputable def fullG (using_opener : Bool) (hitters pitchers : ℕ → Profile)
    (oracle : ℕ → Outcome) : ℕ → FullState
  | 0 => ⟨initState using_opener, fun _ _ => 0⟩
  | n + 1 => gstepFull using_opener hitters pitchers oracle
      (fullG using_opener hitters pitchers oracle n)

/-- `sim_game` (source lines 43-107), with the loop bounded by `fuel`
iterations: if the guard `outs < 27` still holds after `fuel` iterations the
run is unfinished (`none`); otherwise the two grids are returned. -/
noncomputable def sim_game (pitchers hitters : ℕ → Profile) (using_opener : Bool)
    (oracle : ℕ → Outcome) (fuel : ℕ) : Option ((ℕ → ℕ → ℝ) × (ℕ → ℕ → ℕ)) :=
  let f := fullG using_opener hitters pitchers oracle fuel
  if f.core.outs < 27 then none
  else some (f.sim_rc_per_hitter_per_inning, f.core.sim_pa_per_hitter_per_inning)

/-- The element-wise sums of the per-game grids over the first `n` trials of
`simulation` (source lines 125-132); `none` if some game is unfinished
within `fuel`. -/
noncomputable def trialSums (pitchers hitters : ℕ → Profile) (using_opener : Bool)
    (oracles : ℕ → ℕ → Outcome) (fuel : ℕ) : ℕ → Option ((ℕ → ℕ → ℝ) × (ℕ → ℕ → ℕ))
  | 0 => some (fun _ _ => 0, fun _ _ => 0)
  | n + 1 =>
    match trialSums pitchers hitters using_opener oracles fuel n,
        sim_game pitchers hitters using_opener (oracles n) fuel with
    | some s, some g => some (fun i j => s.1 i j + g.1 i j, fun i j => s.2 i j + g.2 i j)
    | _, _ => none

/-- The grand total of a 9 by 9 grid (`df.sum().sum()`): rows are keyed
`0..8`, columns `1..9`. -/
noncomputable def gridTotal (g : ℕ → ℕ → ℝ) : ℝ :=
  ∑ i ∈ Finset.range 9, ∑ j ∈ Finset.range 9, g i (j + 1)

/-- `sim_rc_df` (source line 134): the runs grid summed over all trials and
divided by `sample_size`. -/
noncomputable def sim_rc_df (pitchers hitters : ℕ → Profile) (using_opener : Bool)
    (oracles : ℕ → ℕ → Outcome) (fuel sample_size : ℕ) : Option (ℕ → ℕ → ℝ) :=
  match trialSums pitchers hitters using_opener oracles fuel sample_size with
  | some s => some (fun i j => s.1 i j / sample_size)
  | none => none

/-- `sim_pa_df` (source line 135): the appearance grid summed over all trials
and divided by `sample_size`. -/
noncomputable def sim_pa_df (pitchers hitters : ℕ → Profile) (using_opener : Bool)
    (oracles : ℕ → ℕ → Outcome) (fuel sample_size : ℕ) : Option (ℕ → ℕ → ℝ) :=
  match trialSums pitchers hitters using_opener oracles fuel sample_size with
  | some s => some (fun i j => (s.2 i j : ℝ) / sample_size)
  | none => none

/-- `simulation` (source lines 110-139): run `sample_size` games, average the
runs grid, and return its grand total.  Trial `i` draws its outcomes from
the stream `oracles i`; the grids themselves are locals of the source
function and are not part of the return value.  The pre-sort of the two
input tables by their `order` column (source lines 122-123) is treated as
data preparation: the `pitchers`/`hitters` arguments are already indexed by
role and batting slot. -/
noncomputable def simulation (pitchers hitters : ℕ → Profile) (using_opener : Bool)
    (oracles : ℕ → ℕ → Outcome) (fuel sample_size : ℕ) : Option ℝ :=
  match trialSums pitchers hitters using_opener oracles fuel sample_size with
  | some s => some (gridTotal (fun i j => s.1 i j / sample_size))
  | none => none

/-- A valid player rate profile: every rate field strictly positive. -/
def validProfile (p : Profile) : Prop :=
  0 < p.k_pct ∧ 0 < p.bb_pct ∧ 0 < p.single_pct ∧ 0 < p.double_pct ∧
    0 < p.triple_pct ∧ 0 < p.hr_pct ∧ 0 < p.hbp_pct

/-- The outcome stream in which every plate appearance is a strikeout. -/
def constK : ℕ → Outcome := fun _ => Outcome.k

/-- The outcome stream in which every plate appearance is a walk. -/
def constBB : ℕ → Outcome := fun _ => Outcome.bb

/-- An outcome stream: a walk first, then strikeouts. -/
def oracleA : ℕ → Outcome := fun n => if n = 0 then Outcome.bb else Outcome.k

/-- An outcome stream: strikeouts, except a walk at plate appearance 27. -/
def oracleB : ℕ → Outcome := fun n => if n = 26 then Outcome.bb else Outcome.k

/-! ### Basic invariants of the game loop -/

/-- The sum of all nine derived probabilities is exactly 1: `oip_pct` is the
residual. -/
theorem sum_probabilities_eq_one (hitter pitcher : Profile) :
    k_pct hitter pitcher + bb_pct hitter pitcher + single_pct hitter pitcher +
      double_pct hitter pitcher + triple_pct hitter pitcher + hr_pct hitter pitcher +
      hbp_pct hitter pitcher + e_pct hitter pitcher + oip_pct hitter pitcher = 1 := by
  unfold oip_pct
  ring

theorem coreStep_total_plate_apps (uo : Bool) (o : Outcome) (g : GState) :
    (coreStep uo o g).total_plate_apps = g.total_plate_apps + 1 := rfl

theorem coreStep_outs (uo : Bool) (o : Outcome) (g : GState) :
    (coreStep uo o g).outs = if isOut o then g.outs + 1 else g.outs := rfl

theorem coreStep_outs_ge (uo : Bool) (o : Outcome) (g : GState) :
    g.outs ≤ (coreStep uo o g).outs := by
  rw [coreStep_outs]
  split <;> omega

theorem coreStep_outs_le (uo : Bool) (o : Outcome) (g : GState) :
    (coreStep uo o g).outs ≤ g.outs + 1 := by
  rw [coreStep_outs]
  split <;> omega

theorem outs_le_27 (uo : Bool) (oracle : ℕ → Outcome) (n : ℕ) :
    (coreG uo oracle n).outs ≤ 27 := by
  induction n with
  | zero => simp [coreG, initState]
  | succ n ih =>
    show (gstep uo oracle (coreG uo oracle n)).outs ≤ 27
    unfold gstep
    split
    · have := coreStep_outs_le uo (oracle (coreG uo oracle n).total_plate_apps) (coreG uo oracle n)
      omega
    · exact ih

theorem outs_mono_succ (uo : Bool) (oracle : ℕ → Outcome) (n : ℕ) :
    (coreG uo oracle n).outs ≤ (coreG uo oracle (n + 1)).outs := by
  show (coreG uo oracle n).outs ≤ (gstep uo oracle (coreG uo oracle n)).outs
  unfold gstep
  split
  · exact coreStep_outs_ge uo _ _
  · exact le_rfl

theorem outs_mono (uo : Bool) (oracle : ℕ → Outcome) {m n : ℕ} (h : m ≤ n) :
    (coreG uo oracle m).outs ≤ (coreG uo oracle n).outs := by
  induction n with
  | zero => simp_all
  | succ n ih =>
    rcases Nat.lt_or_ge m (n + 1) with h' | h'
    · exact le_trans (ih (by omega)) (outs_mono_succ uo oracle n)
    · have : m = n + 1 := by omega
      subst this
      exact le_rfl

theorem outs_succ_le (uo : Bool) (oracle : ℕ → Outcome) (n : ℕ) :
    (coreG uo oracle (n + 1)).outs ≤ (coreG uo oracle n).outs + 1 := by
  show (gstep uo oracle (coreG uo oracle n)).outs ≤ _
  unfold gstep
  split
  · exact coreStep_outs_le uo _ _
  · omega

theorem total_plate_apps_le (uo : Bool) (oracle : ℕ → Outcome) (n : ℕ) :
    (coreG uo oracle n).total_plate_apps ≤ n := by
  induction n with
  | zero => simp [coreG, initState]
  | succ n ih =>
    show (gstep uo oracle (coreG uo oracle n)).total_plate_apps ≤ n + 1
    unfold gstep
    split
    · rw [coreStep_total_plate_apps]; omega
    · omega

theorem total_plate_apps_of_running (uo : Bool) (oracle : ℕ → Outcome) (n : ℕ)
    (h : (coreG uo oracle n).outs < 27) :
    (coreG uo oracle n).total_plate_apps = n := by
  induction n with
  | zero => rfl
  | succ n ih =>
    have hn : (coreG uo oracle n).outs < 27 :=
      lt_of_le_of_lt (outs_mono_succ uo oracle n) h
    show (gstep uo oracle (coreG uo oracle n)).total_plate_apps = n + 1
    unfold gstep
    rw [if_pos hn, coreStep_total_plate_apps, ih hn]

theorem outs_le_total_plate_apps (uo : Bool) (oracle : ℕ → Outcome) (n : ℕ) :
    (coreG uo oracle n).outs ≤ (coreG uo oracle n).total_plate_apps := by
  induction n with
  | zero => simp [coreG, initState]
  | succ n ih =>
    show (gstep uo oracle (coreG uo oracle n)).outs ≤
      (gstep uo oracle (coreG uo oracle n)).total_plate_apps
    unfold gstep
    split
    · rw [coreStep_total_plate_apps]
      have := coreStep_outs_le uo (oracle (coreG uo oracle n).total_plate_apps) (coreG uo oracle n)
      omega
    · exact ih

theorem coreG_frozen (uo : Bool) (oracle : ℕ → Outcome) {n : ℕ}
    (h : ¬ (coreG uo oracle n).outs < 27) (k : ℕ) :
    coreG uo oracle (n + k) = coreG uo oracle n := by
  induction k with
  | zero => rfl
  | succ k ih =>
    show gstep uo oracle (coreG uo oracle (n + k)) = _
    rw [ih]
    unfold gstep
    rw [if_neg h]

theorem countOuts_succ (oracle : ℕ → Outcome) (n : ℕ) :
    countOuts oracle (n + 1) = countOuts oracle n + if isOut (oracle n) then 1 else 0 := by
  unfold countOuts
  rw [Finset.range_succ, Finset.filter_insert]
  split
  · rw [Finset.card_insert_of_not_mem (by simp)]
  · omega

theorem countOuts_mono (oracle : ℕ → Outcome) {m n : ℕ} (h : m ≤ n) :
    countOuts oracle m ≤ countOuts oracle n := by
  unfold countOuts
  exact Finset.card_le_card (Finset.filter_subset_filter _ (by simp [Finset.range_subset, h]))

theorem outs_eq_countOuts (uo : Bool) (oracle : ℕ → Outcome) (n : ℕ)
    (h : (coreG uo oracle n).outs < 27) :
    (coreG uo oracle n).outs = countOuts oracle n := by
  induction n with
  | zero => rfl
  | succ n ih =>
    have hn : (coreG uo oracle n).outs < 27 :=
      lt_of_le_of_lt (outs_mono_succ uo oracle n) h
    show (gstep uo oracle (coreG uo oracle n)).outs = countOuts oracle (n + 1)
    unfold gstep
    rw [if_pos hn, coreStep_outs, total_plate_apps_of_running uo oracle n hn,
      countOuts_succ, ih hn]
    by_cases ho : isOut (oracle n) <;> simp [ho]

theorem outs_le_countOuts (uo : Bool) (oracle : ℕ → Outcome) (n : ℕ) :
    (coreG uo oracle n).outs ≤ countOuts oracle n := by
  induction n with
  | zero => exact le_of_eq rfl
  | succ n ih =>
    have hco : countOuts oracle n ≤ countOuts oracle (n + 1) :=
      countOuts_mono oracle (by omega)
    show (gstep uo oracle (coreG uo oracle n)).outs ≤ countOuts oracle (n + 1)
    unfold gstep
    split
    · next hrun =>
      rw [coreStep_outs, total_plate_apps_of_running uo oracle n hrun, countOuts_succ]
      by_cases ho : isOut (oracle n) <;> simp [ho] <;> omega
    · omega

/-- Discrete intermediate value property: the out count passes through every
value up to any value it attains. -/
theorem outs_reaches (uo : Bool) (oracle : ℕ → Outcome) (v : ℕ) :
    ∀ N, v ≤ (coreG uo oracle N).outs → ∃ n, (coreG uo oracle n).outs = v := by
  intro N
  induction N with
  | zero =>
    intro h
    have h0 : (coreG uo oracle 0).outs = 0 := rfl
    exact ⟨0, by omega⟩
  | succ N ih =>
    intro h
    rcases Nat.lt_or_ge ((coreG uo oracle N).outs) v with h' | h'
    · have := outs_succ_le uo oracle N
      exact ⟨N + 1, by omega⟩
    · exact ih h'

/-! ### Pitcher-rotation policy: step-level case analyses -/

theorem coreStep_pitcher_cases (uo : Bool) (o : Outcome) (g : GState) :
    (coreStep uo o g).current_pitcher = 1 ∨ (coreStep uo o g).current_pitcher = 2 ∨
      (coreStep uo o g).current_pitcher = 3 ∨
      (coreStep uo o g).current_pitcher = g.current_pitcher := by
  simp only [coreStep]
  split <;> split_ifs <;> simp

theorem coreStep_false_keep_starter (o : Outcome) (g : GState)
    (hp : g.current_pitcher = 2) (hpa : g.total_plate_apps + 1 ≤ 24) :
    (coreStep false o g).current_pitcher = 2 ∧
      (coreStep false o g).outs_at_pitching_change = g.outs_at_pitching_change := by
  simp only [coreStep]
  split_ifs <;> simp_all <;> omega

theorem coreStep_false_to_opener (o : Outcome) (g : GState)
    (hp : g.current_pitcher = 2) (hpa : 24 < g.total_plate_apps + 1) :
    (coreStep false o g).current_pitcher = 1 ∧
      (coreStep false o g).outs_at_pitching_change = g.outs := by
  simp only [coreStep]
  split_ifs <;> simp_all <;> omega

theorem coreStep_false_opener_stay (o : Outcome) (g : GState)
    (hp : g.current_pitcher = 1) (hout : g.outs ≠ g.outs_at_pitching_change + 3) :
    (coreStep false o g).current_pitcher = 1 ∧
      (coreStep false o g).outs_at_pitching_change = g.outs_at_pitching_change := by
  simp only [coreStep]
  split_ifs <;> simp_all <;> omega

theorem coreStep_false_opener_to_bullpen (o : Outcome) (g : GState)
    (hp : g.current_pitcher = 1) (hout : g.outs = g.outs_at_pitching_change + 3) :
    (coreStep false o g).current_pitcher = 3 ∧
      (coreStep false o g).outs_at_pitching_change = g.outs_at_pitching_change := by
  simp only [coreStep]
  split_ifs <;> simp_all <;> omega

theorem coreStep_false_bullpen_stay (o : Outcome) (g : GState)
    (hp : g.current_pitcher = 3) :
    (coreStep false o g).current_pitcher = 3 ∧
      (coreStep false o g).outs_at_pitching_change = g.outs_at_pitching_change := by
  simp only [coreStep]
  split_ifs <;> simp_all <;> omega

/-- Inversion: in the starter-first branch, a transition into the bullpen can
only happen from the relief opener, exactly 3 outs after the recorded
pitching change. -/
theorem coreStep_false_bullpen_inv (o : Outcome) (g : GState)
    (h3 : (coreStep false o g).current_pitcher = 3) (hne : g.current_pitcher ≠ 3) :
    g.current_pitcher = 1 ∧ g.outs = g.outs_at_pitching_change + 3 := by
  simp only [coreStep] at h3
  split_ifs at h3 <;> simp_all <;> omega

theorem coreStep_true_marker (o : Outcome) (g : GState) :
    (coreStep true o g).outs_at_pitching_change = g.outs_at_pitching_change := by
  simp only [coreStep]
  split_ifs <;> simp

/-- Inversion: in the opener-first branch nothing transitions into role 1. -/
theorem coreStep_true_opener_inv (o : Outcome) (g : GState)
    (h1 : (coreStep true o g).current_pitcher = 1) :
    g.current_pitcher = 1 ∧ g.outs ≠ 3 := by
  simp only [coreStep] at h1
  split_ifs at h1 <;> simp_all <;> omega

theorem coreStep_true_opener_stay (o : Outcome) (g : GState)
    (hp : g.current_pitcher = 1) (hout : g.outs ≠ 3) :
    (coreStep true o g).current_pitcher = 1 := by
  simp only [coreStep]
  split_ifs <;> simp_all <;> omega

theorem coreStep_true_opener_leave (o : Outcome) (g : GState)
    (hp : g.current_pitcher = 1) (hout : g.outs = 3) :
    (coreStep true o g).current_pitcher =
      (if 27 < g.total_plate_apps + 1 then 3 else 2) := by
  simp only [coreStep]
  split_ifs <;> simp_all <;> omega

/-- Inversion: in the opener-first branch, a transition into the bullpen
requires the cumulative plate appearance count to exceed 27. -/
theorem coreStep_true_bullpen_inv (o : Outcome) (g : GState)
    (h3 : (coreStep true o g).current_pitcher = 3) (hne : g.current_pitcher ≠ 3) :
    27 < g.total_plate_apps + 1 := by
  simp only [coreStep] at h3
  split_ifs at h3 <;> simp_all <;> omega

/-- Inversion: in the opener-first branch, a transition from role 1 to role 2
happens exactly when the out count is 3. -/
theorem coreStep_true_bridge_inv (o : Outcome) (g : GState)
    (hp : g.current_pitcher = 1) (h2 : (coreStep true o g).current_pitcher = 2) :
    g.outs = 3 := by
  simp only [coreStep] at h2
  split_ifs at h2 <;> simp_all <;> omega

theorem coreStep_true_bridge_to_bullpen (o : Outcome) (g : GState)
    (hp : g.current_pitcher = 2) (hpa : 27 < g.total_plate_apps + 1) :
    (coreStep true o g).current_pitcher = 3 := by
  simp only [coreStep]
  split_ifs <;> simp_all <;> omega

theorem total_plate_apps_mono (uo : Bool) (oracle : ℕ → Outcome) {m n : ℕ} (h : m ≤ n) :
    (coreG uo oracle m).total_plate_apps ≤ (coreG uo oracle n).total_plate_apps := by
  induction n with
  | zero => simp_all
  | succ n ih =>
    rcases Nat.lt_or_ge m (n + 1) with h' | h'
    · refine le_trans (ih (by omega)) ?_
      show _ ≤ (gstep uo oracle (coreG uo oracle n)).total_plate_apps
      unfold gstep
      split
      · rw [coreStep_total_plate_apps]; omega
      · exact le_rfl
    · have : m = n + 1 := by omega
      subst this
      exact le_rfl

theorem pitcher_mem (uo : Bool) (oracle : ℕ → Outcome) (n : ℕ) :
    (coreG uo oracle n).current_pitcher = 1 ∨ (coreG uo oracle n).current_pitcher = 2 ∨
      (coreG uo oracle n).current_pitcher = 3 := by
  induction n with
  | zero =>
    cases uo
    · right; left; rfl
    · left; rfl
  | succ n ih =>
    show (gstep uo oracle (coreG uo oracle n)).current_pitcher = 1 ∨
      (gstep uo oracle (coreG uo oracle n)).current_pitcher = 2 ∨
      (gstep uo oracle (coreG uo oracle n)).current_pitcher = 3
    unfold gstep
    split
    · rcases coreStep_pitcher_cases uo (oracle (coreG uo oracle n).total_plate_apps)
        (coreG uo oracle n) with h | h | h | h <;> rw [h] <;> omega
    · exact ih

/-! ### Starter-first branch (`using_opener = false`) trajectory lemmas -/

/-- Through the first 24 plate appearances the starter (role 2) is active and
no pitching change has been recorded. -/
theorem false_before_25 (oracle : ℕ → Outcome) (n : ℕ) (h : n ≤ 24) :
    (coreG false oracle n).current_pitcher = 2 ∧
      (coreG false oracle n).outs_at_pitching_change = 0 := by
  induction n with
  | zero => exact ⟨rfl, rfl⟩
  | succ n ih =>
    have ihn := ih (by omega)
    have hrun : (coreG false oracle n).outs < 27 :=
      lt_of_le_of_lt (le_trans (outs_le_total_plate_apps false oracle n)
        (total_plate_apps_le false oracle n)) (by omega)
    have hpa : (coreG false oracle n).total_plate_apps + 1 ≤ 24 := by
      have := total_plate_apps_le false oracle n
      omega
    show (gstep false oracle (coreG false oracle n)).current_pitcher = 2 ∧
      (gstep false oracle (coreG false oracle n)).outs_at_pitching_change = 0
    unfold gstep
    rw [if_pos hrun]
    have := coreStep_false_keep_starter (oracle (coreG false oracle n).total_plate_apps)
      (coreG false oracle n) ihn.1 hpa
    exact ⟨this.1, by rw [this.2, ihn.2]⟩

/-- At plate appearance 25 the starter hands over to the relief opener and
the current out count is recorded. -/
theorem false_switch_at_25 (oracle : ℕ → Outcome) :
    (coreG false oracle 25).current_pitcher = 1 ∧
      (coreG false oracle 25).outs_at_pitching_change = (coreG false oracle 24).outs := by
  have h24 := false_before_25 oracle 24 (by omega)
  have hrun : (coreG false oracle 24).outs < 27 :=
    lt_of_le_of_lt (le_trans (outs_le_total_plate_apps false oracle 24)
      (total_plate_apps_le false oracle 24)) (by omega)
  have hpa : 24 < (coreG false oracle 24).total_plate_apps + 1 := by
    rw [total_plate_apps_of_running false oracle 24 hrun]
    omega
  show (gstep false oracle (coreG false oracle 24)).current_pitcher = 1 ∧
    (gstep false oracle (coreG false oracle 24)).outs_at_pitching_change =
      (coreG false oracle 24).outs
  unfold gstep
  rw [if_pos hrun]
  exact coreStep_false_to_opener _ _ h24.1 hpa

/-- From plate appearance 25 on, role 2 is never active again and the
recorded pitching-change marker no longer changes. -/
theorem false_after_25 (oracle : ℕ → Outcome) (n : ℕ) (h : 25 ≤ n) :
    (coreG false oracle n).current_pitcher ≠ 2 ∧
      (coreG false oracle n).outs_at_pitching_change =
        (coreG false oracle 25).outs_at_pitching_change := by
  induction n with
  | zero => omega
  | succ n ih =>
    rcases Nat.lt_or_ge n 25 with h' | h'
    · have : n = 24 := by omega
      subst this
      have := false_switch_at_25 oracle
      exact ⟨by rw [this.1]; omega, rfl⟩
    · have ihn := ih h'
      show (gstep false oracle (coreG false oracle n)).current_pitcher ≠ 2 ∧
        (gstep false oracle (coreG false oracle n)).outs_at_pitching_change = _
      unfold gstep
      split
      · rcases pitcher_mem false oracle n with h1 | h2 | h3
        · by_cases hout : (coreG false oracle n).outs =
            (coreG false oracle n).outs_at_pitching_change + 3
          · have := coreStep_false_opener_to_bullpen
              (oracle (coreG false oracle n).total_plate_apps) (coreG false oracle n) h1 hout
            exact ⟨by omega, by rw [this.2, ihn.2]⟩
          · have := coreStep_false_opener_stay
              (oracle (coreG false oracle n).total_plate_apps) (coreG false oracle n) h1 hout
            exact ⟨by omega, by rw [this.2, ihn.2]⟩
        · exact absurd h2 ihn.1
        · have := coreStep_false_bullpen_stay
            (oracle (coreG false oracle n).total_plate_apps) (coreG false oracle n) h3
          exact ⟨by omega, by rw [this.2, ihn.2]⟩
      · exact ihn

/-- Any transition into the bullpen in the starter-first branch happens from
the relief opener, at a running step whose out count is exactly 3 more than
the marker recorded at plate appearance 25. -/
theorem false_bullpen_moment (oracle : ℕ → Outcome) (n : ℕ)
    (hne : (coreG false oracle n).current_pitcher ≠ 3)
    (h3 : (coreG false oracle (n + 1)).current_pitcher = 3) :
    (coreG false oracle n).current_pitcher = 1 ∧
      (coreG false oracle n).outs =
        (coreG false oracle 25).outs_at_pitching_change + 3 ∧
      (coreG false oracle n).outs < 27 ∧ 25 ≤ n := by
  have hstep : (coreG false oracle (n + 1)) = gstep false oracle (coreG false oracle n) := rfl
  rw [hstep] at h3
  unfold gstep at h3
  by_cases hrun : (coreG false oracle n).outs < 27
  · rw [if_pos hrun] at h3
    have hinv := coreStep_false_bullpen_inv _ _ h3 hne
    have h25 : 25 ≤ n := by
      by_contra hlt
      have := (false_before_25 oracle n (by omega)).1
      omega
    have hmarker := (false_after_25 oracle n h25).2
    exact ⟨hinv.1, by rw [← hmarker]; exact hinv.2, hrun, h25⟩
  · rw [if_neg hrun] at h3
    exact absurd h3 hne

/-- In a terminating starter-first run whose marker is small enough that
three more outs still fit before the game ends, the bullpen does enter. -/
theorem false_bullpen_exists (oracle : ℕ → Outcome) (hterm : terminates false oracle)
    (hc : (coreG false oracle 25).outs_at_pitching_change + 3 < 27) :
    ∃ m, (coreG false oracle m).current_pitcher = 3 := by
  by_contra hno
  push_neg at hno
  obtain ⟨N, hN⟩ := hterm
  obtain ⟨n, hn⟩ := outs_reaches false oracle
    ((coreG false oracle 25).outs_at_pitching_change + 3) N (by omega)
  have h25 : 25 ≤ n := by
    by_contra hlt
    have hmono : (coreG false oracle n).outs ≤ (coreG false oracle 24).outs :=
      outs_mono false oracle (by omega)
    have := (false_switch_at_25 oracle).2
    omega
  have hp1 : (coreG false oracle n).current_pitcher = 1 := by
    rcases pitcher_mem false oracle n with h1 | h2 | h3
    · exact h1
    · exact absurd h2 (false_after_25 oracle n h25).1
    · exact absurd h3 (hno n)
  have hrun : (coreG false oracle n).outs < 27 := by omega
  have hmarker := (false_after_25 oracle n h25).2
  have hout : (coreG false oracle n).outs = (coreG false oracle n).outs_at_pitching_change + 3 := by
    omega
  have := coreStep_false_opener_to_bullpen (oracle (coreG false oracle n).total_plate_apps)
    (coreG false oracle n) hp1 hout
  have hstep : (coreG false oracle (n + 1)) = gstep false oracle (coreG false oracle n) := rfl
  have : (coreG false oracle (n + 1)).current_pitcher = 3 := by
    rw [hstep]
    unfold gstep
    rw [if_pos hrun]
    exact this.1
  exact absurd this (hno (n + 1))

/-! ### Opener-first branch (`using_opener = true`) trajectory lemmas -/

/-- While the opener (role 1) is active, at most 3 outs have been recorded. -/
theorem true_opener_outs_le (oracle : ℕ → Outcome) (n : ℕ)
    (h1 : (coreG true oracle n).current_pitcher = 1) :
    (coreG true oracle n).outs ≤ 3 := by
  induction n with
  | zero =>
    have h0 : (coreG true oracle 0).outs = 0 := rfl
    omega
  | succ n ih =>
    have hstep : coreG true oracle (n + 1) = gstep true oracle (coreG true oracle n) := rfl
    rw [hstep] at h1 ⊢
    unfold gstep at h1 ⊢
    by_cases hrun : (coreG true oracle n).outs < 27
    · rw [if_pos hrun] at h1 ⊢
      have hinv := coreStep_true_opener_inv _ _ h1
      have := ih hinv.1
      have := coreStep_outs_le true (oracle (coreG true oracle n).total_plate_apps)
        (coreG true oracle n)
      have hne := hinv.2
      omega
    · rw [if_neg hrun] at h1 ⊢
      exact ih h1

/-- The plate appearance resolved while role 1 is its pitcher begins with at
most 2 outs. -/
theorem true_opener_resolver (oracle : ℕ → Outcome) (n : ℕ)
    (h1 : (coreG true oracle (n + 1)).current_pitcher = 1) :
    (coreG true oracle n).outs ≤ 2 := by
  have hstep : coreG true oracle (n + 1) = gstep true oracle (coreG true oracle n) := rfl
  rw [hstep] at h1
  unfold gstep at h1
  by_cases hrun : (coreG true oracle n).outs < 27
  · rw [if_pos hrun] at h1
    have hinv := coreStep_true_opener_inv _ _ h1
    have := true_opener_outs_le oracle n hinv.1
    have hne := hinv.2
    omega
  · rw [if_neg hrun] at h1
    have := true_opener_outs_le oracle n h1
    omega

/-- Once role 1 has been left it is never re-entered. -/
theorem true_no_reenter (oracle : ℕ → Outcome) (n : ℕ)
    (h : (coreG true oracle n).current_pitcher ≠ 1) (k : ℕ) :
    (coreG true oracle (n + k)).current_pitcher ≠ 1 := by
  induction k with
  | zero => exact h
  | succ k ih =>
    intro h1
    have hstep : coreG true oracle (n + (k + 1)) = gstep true oracle (coreG true oracle (n + k)) :=
      rfl
    rw [hstep] at h1
    unfold gstep at h1
    by_cases hrun : (coreG true oracle (n + k)).outs < 27
    · rw [if_pos hrun] at h1
      exact ih (coreStep_true_opener_inv _ _ h1).1
    · rw [if_neg hrun] at h1
      exact ih h1

/-- Any opener-to-bridge switch happens exactly at out count 3. -/
theorem true_bridge_moment (oracle : ℕ → Outcome) (n : ℕ)
    (h1 : (coreG true oracle n).current_pitcher = 1)
    (h2 : (coreG true oracle (n + 1)).current_pitcher = 2) :
    (coreG true oracle n).outs = 3 := by
  have hstep : coreG true oracle (n + 1) = gstep true oracle (coreG true oracle n) := rfl
  rw [hstep] at h2
  unfold gstep at h2
  by_cases hrun : (coreG true oracle n).outs < 27
  · rw [if_pos hrun] at h2
    exact coreStep_true_bridge_inv _ _ h1 h2
  · rw [if_neg hrun] at h2
    omega

/-- Any transition into the bullpen in the opener-first branch happens at a
running step and lands on a cumulative plate-appearance count above 27. -/
theorem true_bullpen_moment (oracle : ℕ → Outcome) (n : ℕ)
    (hne : (coreG true oracle n).current_pitcher ≠ 3)
    (h3 : (coreG true oracle (n + 1)).current_pitcher = 3) :
    27 < (coreG true oracle (n + 1)).total_plate_apps ∧ (coreG true oracle n).outs < 27 := by
  have hstep : coreG true oracle (n + 1) = gstep true oracle (coreG true oracle n) := rfl
  rw [hstep] at h3 ⊢
  unfold gstep at h3 ⊢
  by_cases hrun : (coreG true oracle n).outs < 27
  · rw [if_pos hrun] at h3 ⊢
    rw [coreStep_total_plate_apps]
    exact ⟨coreStep_true_bullpen_inv _ _ h3 hne, hrun⟩
  · rw [if_neg hrun] at h3
    exact absurd h3 hne

/-- In every terminating opener-first run the opener is relieved at the
first moment the out count reaches 3. -/
theorem true_opener_leave_exists (oracle : ℕ → Outcome) (hterm : terminates true oracle) :
    ∃ n, (coreG true oracle n).current_pitcher = 1 ∧ (coreG true oracle n).outs = 3 ∧
      (coreG true oracle (n + 1)).current_pitcher ≠ 1 := by
  obtain ⟨N, hN⟩ := hterm
  have hex : ∃ n, (coreG true oracle n).outs = 3 := outs_reaches true oracle 3 N (by omega)
  classical
  let n0 := Nat.find hex
  have hn0 : (coreG true oracle n0).outs = 3 := Nat.find_spec hex
  have hstay : ∀ m, m ≤ n0 → (coreG true oracle m).current_pitcher = 1 := by
    intro m
    induction m with
    | zero => intro _; rfl
    | succ m ih =>
      intro hm
      have hmlt : m < n0 := by omega
      have hlt : (coreG true oracle m).outs < 3 := by
        have hle : (coreG true oracle m).outs ≤ (coreG true oracle n0).outs :=
          outs_mono true oracle (by omega)
        have hne : (coreG true oracle m).outs ≠ 3 := Nat.find_min hex hmlt
        omega
      have hrun : (coreG true oracle m).outs < 27 := by omega
      show (gstep true oracle (coreG true oracle m)).current_pitcher = 1
      unfold gstep
      rw [if_pos hrun]
      exact coreStep_true_opener_stay _ _ (ih (by omega)) (by omega)
  refine ⟨n0, hstay n0 le_rfl, hn0, ?_⟩
  have hrun : (coreG true oracle n0).outs < 27 := by omega
  show (gstep true oracle (coreG true oracle n0)).current_pitcher ≠ 1
  unfold gstep
  rw [if_pos hrun]
  rw [coreStep_true_opener_leave _ _ (hstay n0 le_rfl) hn0]
  split <;> omega

/-- In every terminating opener-first run with more than 27 total plate
appearances the bullpen eventually becomes the active pitcher. -/
theorem true_bullpen_exists (oracle : ℕ → Outcome) (hterm : terminates true oracle)
    (hpa : ∃ n, 27 < (coreG true oracle n).total_plate_apps) :
    ∃ m, (coreG true oracle m).current_pitcher = 3 := by
  by_contra hno
  push_neg at hno
  classical
  have hN0 : ∃ n, (coreG true oracle n).outs = 27 := hterm
  let N0 := Nat.find hN0
  have hN0spec : (coreG true oracle N0).outs = 27 := Nat.find_spec hN0
  have hN0pos : 0 < N0 := by
    rcases Nat.eq_zero_or_pos N0 with h | h
    · have : (coreG true oracle N0).outs = 0 := by rw [h]; rfl
      omega
    · exact h
  have hprev : (coreG true oracle (N0 - 1)).outs < 27 := by
    have hle : (coreG true oracle (N0 - 1)).outs ≤ 27 := outs_le_27 true oracle (N0 - 1)
    have hne : (coreG true oracle (N0 - 1)).outs ≠ 27 := Nat.find_min hN0 (by omega)
    omega
  have hsucc : N0 - 1 + 1 = N0 := by omega
  have hout26 : 26 ≤ (coreG true oracle (N0 - 1)).outs := by
    have := outs_succ_le true oracle (N0 - 1)
    rw [hsucc] at this
    omega
  have hpaN0 : 27 < (coreG true oracle N0).total_plate_apps := by
    obtain ⟨n, hn⟩ := hpa
    rcases Nat.le_total n N0 with h | h
    · have := total_plate_apps_mono true oracle h
      omega
    · have hfr : coreG true oracle (N0 + (n - N0)) = coreG true oracle N0 :=
        coreG_frozen true oracle (by omega) (n - N0)
      have heq : N0 + (n - N0) = n := by omega
      rw [heq] at hfr
      rw [hfr] at hn
      exact hn
  have hp2 : (coreG true oracle (N0 - 1)).current_pitcher = 2 := by
    rcases pitcher_mem true oracle (N0 - 1) with h1 | h2 | h3
    · have := true_opener_outs_le oracle (N0 - 1) h1
      omega
    · exact h2
    · exact absurd h3 (hno (N0 - 1))
  have hpa' : 27 < (coreG true oracle (N0 - 1)).total_plate_apps + 1 := by
    have hstep : coreG true oracle N0 = gstep true oracle (coreG true oracle (N0 - 1)) := by
      rw [← hsucc]; rfl
    rw [hstep] at hpaN0
    unfold gstep at hpaN0
    rw [if_pos hprev, coreStep_total_plate_apps] at hpaN0
    omega
  have : (coreG true oracle N0).current_pitcher = 3 := by
    have hstep : coreG true oracle N0 = gstep true oracle (coreG true oracle (N0 - 1)) := by
      rw [← hsucc]; rfl
    rw [hstep]
    unfold gstep
    rw [if_pos hprev]
    exact coreStep_true_bridge_to_bullpen _ _ hp2 hpa'
  exact absurd this (hno N0)

/-! ### Correctness of the weighted draw -/

/-- Invariant of the `bisect_right` binary search (for arbitrary, possibly
unsorted, cumulative arrays): the returned index `i` lies in `[lo, hi]`,
`a (i-1) ≤ x` unless `i = lo`, and `x < a i` unless `i = hi`. -/
theorem bisect_loop_spec (a : ℕ → ℝ) (x : ℝ) :
    ∀ fuel lo hi, lo ≤ hi → hi - lo ≤ fuel →
      lo ≤ bisect_loop a x fuel lo hi ∧ bisect_loop a x fuel lo hi ≤ hi ∧
        (bisect_loop a x fuel lo hi = lo ∨ a (bisect_loop a x fuel lo hi - 1) ≤ x) ∧
        (bisect_loop a x fuel lo hi = hi ∨ x < a (bisect_loop a x fuel lo hi)) := by
  intro fuel
  induction fuel with
  | zero =>
    intro lo hi hle hfuel
    have : lo = hi := by omega
    subst this
    exact ⟨le_rfl, le_rfl, Or.inl rfl, Or.inl rfl⟩
  | succ fuel ih =>
    intro lo hi hle hfuel
    have hunfold : bisect_loop a x (fuel + 1) lo hi =
        if lo < hi then
          if x < a ((lo + hi) / 2) then bisect_loop a x fuel lo ((lo + hi) / 2)
          else bisect_loop a x fuel ((lo + hi) / 2 + 1) hi
        else lo := rfl
    rw [hunfold]
    by_cases hlt : lo < hi
    · rw [if_pos hlt]
      by_cases hx : x < a ((lo + hi) / 2)
      · rw [if_pos hx]
        have hmid : lo ≤ (lo + hi) / 2 ∧ (lo + hi) / 2 < hi := by omega
        obtain ⟨h1, h2, h3, h4⟩ := ih lo ((lo + hi) / 2) hmid.1 (by omega)
        refine ⟨h1, by omega, h3, ?_⟩
        rcases h4 with h4 | h4
        · exact Or.inr (by rw [h4]; exact hx)
        · exact Or.inr h4
      · rw [if_neg hx]
        have hmid : lo ≤ (lo + hi) / 2 ∧ (lo + hi) / 2 < hi := by omega
        obtain ⟨h1, h2, h3, h4⟩ := ih ((lo + hi) / 2 + 1) hi (by omega) (by omega)
        refine ⟨by omega, h2, ?_, h4⟩
        rcases h3 with h3 | h3
        · refine Or.inr ?_
          rw [h3]
          simpa using le_of_not_lt hx
        · exact Or.inr h3
    · rw [if_neg hlt]
      have : lo = hi := by omega
      subst this
      exact ⟨le_rfl, le_rfl, Or.inl rfl, Or.inl rfl⟩

/-- The nine derived weights sum to exactly 1 (the `oip` residual). -/
theorem weights_list_sum (hitter pitcher : Profile) :
    (weights_list hitter pitcher).sum = 1 := by
  simp only [weights_list, List.sum_cons, List.sum_nil, oip_pct]
  ring

theorem cum_weights_nine (hitter pitcher : Profile) :
    cum_weights (weights_list hitter pitcher) 8 = 1 := by
  have h : (weights_list hitter pitcher).take 9 = weights_list hitter pitcher := by
    apply List.take_of_length_le
    simp [weights_list]
  unfold cum_weights
  rw [show (8 : ℕ) + 1 = 9 from rfl, h]
  exact weights_list_sum hitter pitcher

/-- If the bisection lands on index `i` with `x` between the neighbouring
cumulative weights, then the weight at `i` is strictly positive. -/
theorem selected_weight_pos (ws : List ℝ) (x : ℝ) (hlen : ws.length = 9) (hx0 : 0 ≤ x)
    (hx8 : x < cum_weights ws 8) (i : ℕ) (hi : i ≤ 8)
    (h3 : i = 0 ∨ cum_weights ws (i - 1) ≤ x) (h4 : i = 8 ∨ x < cum_weights ws i) :
    0 < ws.getD i 0 := by
  have hup : x < cum_weights ws i := by
    rcases h4 with h | h
    · rw [h]; exact hx8
    · exact h
  have hgetD : ws.getD i 0 = ws.get ⟨i, by omega⟩ := List.getD_eq_get ws 0 (by omega)
  rcases Nat.eq_zero_or_pos i with h0 | hpos
  · subst h0
    have hc0 : cum_weights ws 0 = ws.get ⟨0, by omega⟩ := by
      unfold cum_weights
      rw [List.sum_take_succ ws 0 (by omega)]
      simp
    rw [hgetD]
    rw [hc0] at hup
    linarith
  · have hlo : cum_weights ws (i - 1) ≤ x := by
      rcases h3 with h | h
      · omega
      · exact h
    have hstep : cum_weights ws i = cum_weights ws (i - 1) + ws.get ⟨i, by omega⟩ := by
      unfold cum_weights
      rw [List.sum_take_succ ws i (by omega), Nat.sub_add_cancel hpos]
      simp [List.get_eq_getElem]
    rw [hgetD]
    linarith [hstep]

/-- The weighted draw of `sim_plate_app` always returns an outcome whose
derived weight is strictly positive: zero-or-negative weights are never
selected and the draw cannot fail. -/
theorem draw_positive (hitter pitcher : Profile) (r : ℝ) (hr0 : 0 ≤ r) (hr1 : r < 1) :
    ∃ o, random_choices population (weights_list hitter pitcher) r = some o ∧
      0 < probabilities hitter pitcher o := by
  have htot : cum_weights (weights_list hitter pitcher) 8 = 1 := cum_weights_nine hitter pitcher
  have hrc : random_choices population (weights_list hitter pitcher) r =
      if cum_weights (weights_list hitter pitcher) 8 ≤ 0 then none
      else population.get? (bisect_loop (cum_weights (weights_list hitter pitcher))
        (r * cum_weights (weights_list hitter pitcher) 8) 8 0 8) := rfl
  rw [hrc, if_neg (by rw [htot]; norm_num)]
  have hx0 : 0 ≤ r * cum_weights (weights_list hitter pitcher) 8 := by
    rw [htot]; linarith
  have hx8 : r * cum_weights (weights_list hitter pitcher) 8 <
      cum_weights (weights_list hitter pitcher) 8 := by
    rw [htot]; linarith
  obtain ⟨h1, h2, h3, h4⟩ := bisect_loop_spec (cum_weights (weights_list hitter pitcher))
    (r * cum_weights (weights_list hitter pitcher) 8) 8 0 8 (by omega) (by omega)
  have hpos := selected_weight_pos (weights_list hitter pitcher)
    (r * cum_weights (weights_list hitter pitcher) 8) rfl hx0 hx8
    (bisect_loop (cum_weights (weights_list hitter pitcher))
      (r * cum_weights (weights_list hitter pitcher) 8) 8 0 8) h2 h3 h4
  have hpw : ∀ i, i ≤ 8 → probabilities hitter pitcher (population.getD i Outcome.k) =
      (weights_list hitter pitcher).getD i 0 := by
    intro i hi
    interval_cases i <;> rfl
  refine ⟨population.getD (bisect_loop (cum_weights (weights_list hitter pitcher))
    (r * cum_weights (weights_list hitter pitcher) 8) 8 0 8) Outcome.k, ?_, ?_⟩
  · have hltlen : (bisect_loop (cum_weights (weights_list hitter pitcher))
        (r * cum_weights (weights_list hitter pitcher) 8) 8 0 8) < population.length := by
      have : population.length = 9 := rfl
      omega
    rw [List.get?_eq_get hltlen, List.getD_eq_get population Outcome.k hltlen]
  · rw [hpw _ h2]
    exact hpos

/-! ### Concrete runs -/

/-- Under the all-walk stream the out count never moves. -/
theorem constBB_outs (uo : Bool) (n : ℕ) : (coreG uo constBB n).outs = 0 := by
  have h := outs_le_countOuts uo constBB n
  have hc : countOuts constBB n = 0 := by
    unfold countOuts
    rw [Finset.card_eq_zero, Finset.filter_eq_empty_iff]
    intro i _
    simp [constBB, isOut]
  omega

/-- In the all-strikeout starter-first run, the bullpen never enters: the
recorded marker is 24, so the required 27th out ends the game first. -/
theorem constK_false_no_bullpen (m : ℕ) : (coreG false constK m).current_pitcher ≠ 3 := by
  intro h3
  have hex : ∃ n, (coreG false constK n).current_pitcher = 3 := ⟨m, h3⟩
  have hm0 : (coreG false constK (Nat.find hex)).current_pitcher = 3 := Nat.find_spec hex
  have hm0pos : 0 < Nat.find hex := by
    rcases Nat.eq_zero_or_pos (Nat.find hex) with h | h
    · have h0 : (coreG false constK (Nat.find hex)).current_pitcher = 2 := by rw [h]; rfl
      omega
    · exact h
  have hne : (coreG false constK (Nat.find hex - 1)).current_pitcher ≠ 3 :=
    Nat.find_min hex (by omega)
  have hsucc : Nat.find hex - 1 + 1 = Nat.find hex := by omega
  have hmom := false_bullpen_moment constK (Nat.find hex - 1) hne (by rw [hsucc]; exact hm0)
  have hmarker : (coreG false constK 25).outs_at_pitching_change = 24 := by decide
  omega

/-- In the all-strikeout opener-first run, the bullpen never enters: the game
ends at exactly 27 plate appearances. -/
theorem constK_true_no_bullpen (m : ℕ) : (coreG true constK m).current_pitcher ≠ 3 := by
  intro h3
  have hex : ∃ n, (coreG true constK n).current_pitcher = 3 := ⟨m, h3⟩
  have hm0 : (coreG true constK (Nat.find hex)).current_pitcher = 3 := Nat.find_spec hex
  have hm0pos : 0 < Nat.find hex := by
    rcases Nat.eq_zero_or_pos (Nat.find hex) with h | h
    · have h0 : (coreG true constK (Nat.find hex)).current_pitcher = 1 := by rw [h]; rfl
      omega
    · exact h
  have hne : (coreG true constK (Nat.find hex - 1)).current_pitcher ≠ 3 :=
    Nat.find_min hex (by omega)
  have hsucc : Nat.find hex - 1 + 1 = Nat.find hex := by omega
  have hmom := true_bullpen_moment constK (Nat.find hex - 1) hne (by rw [hsucc]; exact hm0)
  rw [hsucc] at hmom
  have hpa := total_plate_apps_le true constK (Nat.find hex)
  have hge : 28 ≤ Nat.find hex := by omega
  have h27 : (coreG true constK 27).outs = 27 := by decide
  have hmono := outs_mono true constK (show 27 ≤ Nat.find hex - 1 by omega)
  omega

/-! ### The runs grid -/

theorem stepFull_core (uo : Bool) (hitters pitchers : ℕ → Profile) (o : Outcome) (f : FullState) :
    (stepFull uo hitters pitchers o f).core = coreStep uo o f.core := rfl

/-- The scalar component of the full game state is exactly the scalar game
state. -/
theorem fullG_core (uo : Bool) (hitters pitchers : ℕ → Profile) (oracle : ℕ → Outcome) (n : ℕ) :
    (fullG uo hitters pitchers oracle n).core = coreG uo oracle n := by
  induction n with
  | zero => rfl
  | succ n ih =>
    show (gstepFull uo hitters pitchers oracle (fullG uo hitters pitchers oracle n)).core =
      gstep uo oracle (coreG uo oracle n)
    unfold gstepFull gstep
    by_cases hrun : (coreG uo oracle n).outs < 27
    · rw [if_pos (by rw [ih]; exact hrun), if_pos hrun, stepFull_core, ih]
    · rw [if_neg (by rw [ih]; exact hrun), if_neg hrun, ih]

/-- Adding `v` at one in-range cell raises the grand total by `v`. -/
theorem gridTotal_update (g : ℕ → ℕ → ℝ) (r c : ℕ) (v : ℝ) (hr : r < 9) (hc1 : 1 ≤ c)
    (hc9 : c ≤ 9) :
    gridTotal (fun i j => if i = r ∧ j = c then g i j + v else g i j) = gridTotal g + v := by
  unfold gridTotal
  have hpt : ∀ i j, (if i = r ∧ j + 1 = c then g i (j + 1) + v else g i (j + 1)) =
      g i (j + 1) + (if j = c - 1 then (if i = r then v else 0) else 0) := by
    intro i j
    rcases eq_or_ne i r with h1 | h1
    · rcases eq_or_ne j (c - 1) with h2 | h2
      · rw [if_pos ⟨h1, by omega⟩, if_pos h2, if_pos h1]
      · rw [if_neg (by intro hc; exact h2 (by omega)), if_neg h2]
        ring
    · rw [if_neg (by intro hc; exact h1 hc.1)]
      rcases eq_or_ne j (c - 1) with h2 | h2
      · rw [if_pos h2, if_neg h1]
        ring
      · rw [if_neg h2]
        ring
  simp only [hpt, Finset.sum_add_distrib]
  congr 1
  have hmem : c - 1 ∈ Finset.range 9 := Finset.mem_range.mpr (by omega)
  have hin : ∀ i, (∑ j ∈ Finset.range 9, if j = c - 1 then (if i = r then v else 0) else 0) =
      (if i = r then v else 0) := by
    intro i
    rw [Finset.sum_ite_eq' (Finset.range 9) (c - 1) (fun _ => if i = r then v else 0)]
    rw [if_pos hmem]
  simp only [hin]
  rw [Finset.sum_ite_eq' (Finset.range 9) r (fun _ => v)]
  rw [if_pos (Finset.mem_range.mpr hr)]

theorem coreStep_position (uo : Bool) (o : Outcome) (g : GState) :
    (coreStep uo o g).position_in_order = g.position_in_order % 9 + 1 := rfl

theorem stepFull_rc_uniform (uo : Bool) (P : Profile) (o : Outcome) (f : FullState) :
    (stepFull uo (fun _ => P) (fun _ => P) o f).sim_rc_per_hitter_per_inning =
      fun i j =>
        if i = f.core.outs / 3 + 1 - 1 ∧ j = (coreStep uo o f.core).position_in_order then
          f.sim_rc_per_hitter_per_inning i j + exp_runs_created P P
        else f.sim_rc_per_hitter_per_inning i j := rfl

/-- With all nine hitters and all three pitchers sharing one profile `P`,
every plate appearance adds the same `exp_runs_created P P`, so the grand
total of the runs grid is the plate-appearance count times that value. -/
theorem fullG_rc_total (uo : Bool) (P : Profile) (oracle : ℕ → Outcome) (n : ℕ) :
    gridTotal ((fullG uo (fun _ => P) (fun _ => P) oracle n).sim_rc_per_hitter_per_inning) =
      ((coreG uo oracle n).total_plate_apps : ℝ) * exp_runs_created P P := by
  induction n with
  | zero =>
    have h0 : (coreG uo oracle 0).total_plate_apps = 0 := rfl
    rw [h0]
    show gridTotal (fun _ _ => 0) = _
    simp [gridTotal]
  | succ n ih =>
    show gridTotal ((gstepFull uo (fun _ => P) (fun _ => P) oracle
      (fullG uo (fun _ => P) (fun _ => P) oracle n)).sim_rc_per_hitter_per_inning) =
      ((gstep uo oracle (coreG uo oracle n)).total_plate_apps : ℝ) * exp_runs_created P P
    unfold gstepFull gstep
    by_cases hrun : (coreG uo oracle n).outs < 27
    · rw [if_pos (by rw [fullG_core]; exact hrun), if_pos hrun, coreStep_total_plate_apps,
        stepFull_rc_uniform]
      rw [gridTotal_update _ _ _ _ ?_ ?_ ?_]
      · rw [ih]
        push_cast
        ring
      · rw [fullG_core]
        omega
      · rw [coreStep_position]
        omega
      · rw [coreStep_position]
        omega
    · rw [if_neg (by rw [fullG_core]; exact hrun), if_neg hrun]
      exact ih

/-- A `sim_game` run that has finished within `fuel` iterations returns the
two grids of its final state. -/
theorem sim_game_eq (pitchers hitters : ℕ → Profile) (uo : Bool) (oracle : ℕ → Outcome)
    (fuel : ℕ) (hdone : ¬ (coreG uo oracle fuel).outs < 27) :
    sim_game pitchers hitters uo oracle fuel =
      some ((fullG uo hitters pitchers oracle fuel).sim_rc_per_hitter_per_inning,
        (coreG uo oracle fuel).sim_pa_per_hitter_per_inning) := by
  unfold sim_game
  simp only [fullG_core]
  rw [if_neg hdone]

/-- When each of the first `N` trials finishes, `trialSums` is the
element-wise sum of the per-game grids. -/
theorem trialSums_eq (pitchers hitters : ℕ → Profile) (uo : Bool) (oracles : ℕ → ℕ → Outcome)
    (fuel : ℕ) (rcs : ℕ → ℕ → ℕ → ℝ) (pas : ℕ → ℕ → ℕ → ℕ) :
    ∀ N, (∀ i, i < N → sim_game pitchers hitters uo (oracles i) fuel = some (rcs i, pas i)) →
      trialSums pitchers hitters uo oracles fuel N =
        some (fun a b => ∑ i ∈ Finset.range N, rcs i a b,
          fun a b => ∑ i ∈ Finset.range N, pas i a b) := by
  intro N
  induction N with
  | zero =>
    intro _
    show some ((fun _ _ => (0 : ℝ)), (fun _ _ => (0 : ℕ))) = _
    have h1 : (fun (_ _ : ℕ) => (0 : ℝ)) = fun a b => ∑ i ∈ Finset.range 0, rcs i a b := by
      funext a b
      simp
    have h2 : (fun (_ _ : ℕ) => (0 : ℕ)) = fun a b => ∑ i ∈ Finset.range 0, pas i a b := by
      funext a b
      simp
    rw [h1, h2]
  | succ N ih =>
    intro h
    show (match trialSums pitchers hitters uo oracles fuel N,
        sim_game pitchers hitters uo (oracles N) fuel with
      | some s, some g =>
        some ((fun i j => s.1 i j + g.1 i j), (fun i j => s.2 i j + g.2 i j))
      | _, _ => none) = _
    rw [ih (fun i hi => h i (by omega)), h N (by omega)]
    show some _ = some _
    congr 1
    refine Prod.ext ?_ ?_
    · funext a b
      simp [Finset.sum_range_succ]
    · funext a b
      simp [Finset.sum_range_succ]

/-- When each of the first `N` trials finishes, `simulation` returns the sum
of the per-game runs-grid totals divided by `N`. -/
theorem simulation_eq (pitchers hitters : ℕ → Profile) (uo : Bool) (oracles : ℕ → ℕ → Outcome)
    (fuel : ℕ) (rcs : ℕ → ℕ → ℕ → ℝ) (pas : ℕ → ℕ → ℕ → ℕ) (N : ℕ)
    (h : ∀ i, i < N → sim_game pitchers hitters uo (oracles i) fuel = some (rcs i, pas i)) :
    simulation pitchers hitters uo oracles fuel N =
      some ((∑ i ∈ Finset.range N, gridTotal (rcs i)) / N) := by
  unfold simulation
  rw [trialSums_eq pitchers hitters uo oracles fuel rcs pas N h]
  show some (gridTotal fun i j => (∑ k ∈ Finset.range N, rcs k i j) / (N : ℝ)) = some _
  congr 1
  unfold gridTotal
  calc ∑ a ∈ Finset.range 9, ∑ b ∈ Finset.range 9,
        (∑ i ∈ Finset.range N, rcs i a (b + 1)) / (N : ℝ)
      = (∑ a ∈ Finset.range 9, ∑ b ∈ Finset.range 9,
          ∑ i ∈ Finset.range N, rcs i a (b + 1)) / (N : ℝ) := by
        rw [Finset.sum_div]
        refine Finset.sum_congr rfl fun a _ => ?_
        rw [Finset.sum_div]
    _ = (∑ i ∈ Finset.range N, ∑ a ∈ Finset.range 9,
          ∑ b ∈ Finset.range 9, rcs i a (b + 1)) / (N : ℝ) := by
        congr 1
        have h1 : ∀ a : ℕ, (∑ b ∈ Finset.range 9, ∑ i ∈ Finset.range N, rcs i a (b + 1)) =
            ∑ i ∈ Finset.range N, ∑ b ∈ Finset.range 9, rcs i a (b + 1) :=
          fun a => Finset.sum_comm
        simp only [h1]
        exact Finset.sum_comm

/-! ### Claim theorems -/

/-- C1: for every hitter profile and pitcher profile with all rate fields
strictly positive, the nine event probabilities derived by `sim_plate_app`
(`k, bb, 1b, 2b, 3b, hr, hbp, e, oip`) sum to exactly 1, because `oip` is
defined as 1 minus the sum of the other eight. -/
theorem C1_probabilities_sum_to_one (hitter pitcher : Profile)
    (hh : validProfile hitter) (hp : validProfile pitcher) :
    probabilities hitter pitcher .k + probabilities hitter pitcher .bb +
      probabilities hitter pitcher .single + probabilities hitter pitcher .double +
      probabilities hitter pitcher .triple + probabilities hitter pitcher .hr +
      probabilities hitter pitcher .hbp + probabilities hitter pitcher .e +
      probabilities hitter pitcher .oip = 1 :=
  sum_probabilities_eq_one hitter pitcher

theorem C1_witness :
    validProfile onesProfile ∧
      probabilities onesProfile onesProfile .k + probabilities onesProfile onesProfile .bb +
        probabilities onesProfile onesProfile .single +
        probabilities onesProfile onesProfile .double +
        probabilities onesProfile onesProfile .triple + probabilities onesProfile onesProfile .hr +
        probabilities onesProfile onesProfile .hbp + probabilities onesProfile onesProfile .e +
        probabilities onesProfile onesProfile .oip = 1 := by
  have hv : validProfile onesProfile := by
    refine ⟨?_, ?_, ?_, ?_, ?_, ?_, ?_⟩ <;> norm_num [onesProfile]
  exact ⟨hv, C1_probabilities_sum_to_one onesProfile onesProfile hv hv⟩

/-- C6: for every valid hitter/pitcher profile pair, the expected-runs-created
value returned by `sim_plate_app` equals the dot product of the nine derived
probabilities with the fixed `LINEAR_WEIGHTS`, and is a deterministic pure
function of the two profiles, unaffected by the random draw value. -/
theorem C6_exp_runs_created_dot_product (hitter pitcher : Profile)
    (hh : validProfile hitter) (hp : validProfile pitcher) (r : ℝ) :
    (sim_plate_app hitter pitcher r).2 =
      (population.map fun o => LINEAR_WEIGHTS o * probabilities hitter pitcher o).sum ∧
      ∀ r1 r2 : ℝ, (sim_plate_app hitter pitcher r1).2 = (sim_plate_app hitter pitcher r2).2 := by
  constructor
  · show exp_runs_created hitter pitcher = _
    simp only [population, List.map_cons, List.map_nil, List.sum_cons, List.sum_nil,
      probabilities, LINEAR_WEIGHTS, exp_runs_created]
    ring
  · intro r1 r2
    rfl

theorem C6_witness :
    (sim_plate_app onesProfile onesProfile 0).2 =
      (population.map fun o => LINEAR_WEIGHTS o * probabilities onesProfile onesProfile o).sum := by
  have hv : validProfile onesProfile := by
    refine ⟨?_, ?_, ?_, ?_, ?_, ?_, ?_⟩ <;> norm_num [onesProfile]
  exact (C6_exp_runs_created_dot_product onesProfile onesProfile hv hv 0).1

/-- C7 counterexample: the source derives the log-linear categories with the
literal base `2.71828`, not the natural exponential `exp` demanded by the
claim; at the all-ones profile pair the two differ (`2.71828 ^ 1.5268 <
exp 1.5268` since `2.71828 < e`). -/
theorem C7_counterexample :
    k_pct onesProfile onesProfile ≠ k_pct_spec onesProfile onesProfile := by
  have hlhs : k_pct onesProfile onesProfile = (2.71828 : ℝ) ^ (1.5268 : ℝ) := by
    unfold k_pct
    norm_num [onesProfile]
  have hrhs : k_pct_spec onesProfile onesProfile = Real.exp 1.5268 := by
    unfold k_pct_spec
    norm_num [onesProfile]
  rw [hlhs, hrhs]
  have hlt : (2.71828 : ℝ) ^ (1.5268 : ℝ) < Real.exp 1.5268 := by
    have he : Real.exp 1.5268 = Real.exp 1 ^ (1.5268 : ℝ) := (Real.exp_one_rpow 1.5268).symm
    rw [he]
    refine Real.rpow_lt_rpow (by norm_num) ?_ (by norm_num)
    have := Real.exp_one_gt_d9
    linarith
  exact ne_of_lt hlt

/-- C7 (amended): `sim_plate_app` derives `k, bb, 1b, 3b, hr, hbp` as
`2.71828 ^ (a·ln(hitter_rate) + b·ln(pitcher_rate) + c)` — the source's
literal base `2.71828`, not the natural exponential — with the
category-specific constants; `2b` as the linear blend with no logarithm; and
`e` as `(1 − (k + bb + hbp)) × 0.016`. -/
theorem C7_formulas (hitter pitcher : Profile) :
    k_pct hitter pitcher = loglinear 0.9427 0.9254 1.5268 hitter.k_pct pitcher.k_pct ∧
      bb_pct hitter pitcher = loglinear 0.906 0.8644 1.9975 hitter.bb_pct pitcher.bb_pct ∧
      single_pct hitter pitcher =
        loglinear 1.01 1.017 1.943 hitter.single_pct pitcher.single_pct ∧
      triple_pct hitter pitcher =
        loglinear 0.8435 0.8698 3.8809 hitter.triple_pct pitcher.triple_pct ∧
      hr_pct hitter pitcher = loglinear 0.9576 0.9268 3.2129 hitter.hr_pct pitcher.hr_pct ∧
      hbp_pct hitter pitcher = loglinear 0.8761 0.7623 2.995 hitter.hbp_pct pitcher.hbp_pct ∧
      double_pct hitter pitcher =
        0.9206 * hitter.double_pct + 0.95779 * pitcher.double_pct - 0.03968 ∧
      e_pct hitter pitcher =
        (1 - (k_pct hitter pitcher + bb_pct hitter pitcher + hbp_pct hitter pitcher)) * 0.016 :=
  ⟨rfl, rfl, rfl, rfl, rfl, rfl, rfl, rfl⟩

/-- C8: for every profile pair (however extreme — the derived weight vector
may contain zero or negative entries) and every draw value `r ∈ [0,1)`, the
weighted draw of `sim_plate_app` returns an outcome (it cannot crash, since
the `oip` residual forces the total weight to exactly 1) and the selected
outcome always has strictly positive weight: zero-or-negative weights are
never selected. -/
theorem C8_draw_nonpositive_never_selected (hitter pitcher : Profile) (r : ℝ)
    (hr0 : 0 ≤ r) (hr1 : r < 1) :
    ∃ o, (sim_plate_app hitter pitcher r).1 = some o ∧ 0 < probabilities hitter pitcher o :=
  draw_positive hitter pitcher r hr0 hr1

theorem C8_witness :
    ∃ o, (sim_plate_app onesProfile onesProfile (1 / 2)).1 = some o ∧
      0 < probabilities onesProfile onesProfile o :=
  C8_draw_nonpositive_never_selected onesProfile onesProfile (1 / 2) (by norm_num) (by norm_num)

/-- C2 counterexample: the all-walk outcome stream never records an out, so
the `sim_game` loop under it never reaches 27 outs — not every run of
`sim_game` terminates. -/
theorem C2_counterexample : ¬ terminates false constBB := by
  rintro ⟨n, hn⟩
  have := constBB_outs false n
  omega

/-- C2 (amended): a `sim_game` run terminates exactly when its outcome
stream supplies at least 27 out-producing outcomes (in particular whenever
`k`/`oip` occur infinitely often), so a run need not terminate for every
stream; the out count never exceeds 27, at termination it equals exactly 27
and the plate-appearance count is at least 27, and each running loop
iteration adds exactly one plate appearance and at most one out. -/
theorem C2_termination (uo : Bool) (oracle : ℕ → Outcome) :
    (∀ n, (coreG uo oracle n).outs ≤ 27) ∧
      (∀ n, (coreG uo oracle n).outs = 27 → 27 ≤ (coreG uo oracle n).total_plate_apps) ∧
      ((∃ m, 27 ≤ countOuts oracle m) → terminates uo oracle) ∧
      (terminates uo oracle → ∃ m, 27 ≤ countOuts oracle m) ∧
      (∀ n, (coreG uo oracle n).outs < 27 →
        (coreG uo oracle (n + 1)).total_plate_apps = (coreG uo oracle n).total_plate_apps + 1 ∧
          (coreG uo oracle (n + 1)).outs ≤ (coreG uo oracle n).outs + 1) := by
  refine ⟨outs_le_27 uo oracle, ?_, ?_, ?_, ?_⟩
  · intro n hn
    have := outs_le_total_plate_apps uo oracle n
    omega
  · rintro ⟨m, hm⟩
    by_contra hnt
    have hall : ∀ n, (coreG uo oracle n).outs ≠ 27 := fun n hn => hnt ⟨n, hn⟩
    have hltm : (coreG uo oracle m).outs < 27 :=
      lt_of_le_of_ne (outs_le_27 uo oracle m) (hall m)
    have := outs_eq_countOuts uo oracle m hltm
    omega
  · rintro ⟨n, hn⟩
    have := outs_le_countOuts uo oracle n
    exact ⟨n, by omega⟩
  · intro n hrun
    constructor
    · show (gstep uo oracle (coreG uo oracle n)).total_plate_apps = _
      unfold gstep
      rw [if_pos hrun, coreStep_total_plate_apps]
    · exact outs_succ_le uo oracle n

theorem C2_witness :
    (∃ m, 27 ≤ countOuts constK m) ∧ terminates false constK ∧
      (coreG false constK 27).outs = 27 ∧ 27 ≤ (coreG false constK 27).total_plate_apps := by
  have hc : 27 ≤ countOuts constK 27 := by decide
  exact ⟨⟨27, hc⟩, (C2_termination false constK).2.2.1 ⟨27, hc⟩, by decide,
    (C2_termination false constK).2.1 27 (by decide)⟩

/-- C3 counterexample: when the first 24 plate appearances are all outs
(all-strikeout stream), the recorded marker is 24, the game ends at the 27th
out, and the bullpen (role 3) never becomes the active pitcher — so the
switch to role 3 "exactly 3 outs after the marker" does not happen in every
starter-first run. -/
theorem C3_counterexample : terminates false constK ∧ ¬ entersBullpen false constK := by
  refine ⟨⟨27, by decide⟩, ?_⟩
  rintro ⟨m, hm⟩
  exact constK_false_no_bullpen m hm

/-- C3 (amended): in every starter-first run the active pitcher is role 2
exactly up to the 24th cumulative plate appearance and switches to role 1
exactly once, at plate appearance 25 (the first strictly after the 24th),
recording the out count at that moment; any switch into role 3 happens from
role 1 exactly 3 outs after the recorded marker; and in every terminating
run it does happen, provided the recorded marker plus 3 is below 27 — when
the marker is 24 (the first 24 plate appearances were all outs) the game
ends with role 1 active and role 3 never enters. -/
theorem C3_starter_first_rotation (oracle : ℕ → Outcome) :
    (∀ n, (coreG false oracle n).current_pitcher = 2 ↔ n ≤ 24) ∧
      ((coreG false oracle 25).current_pitcher = 1 ∧
        (coreG false oracle 25).outs_at_pitching_change = (coreG false oracle 24).outs) ∧
      (∀ n, (coreG false oracle n).current_pitcher ≠ 3 →
        (coreG false oracle (n + 1)).current_pitcher = 3 →
        (coreG false oracle n).current_pitcher = 1 ∧
          (coreG false oracle n).outs =
            (coreG false oracle 25).outs_at_pitching_change + 3) ∧
      (terminates false oracle →
        (coreG false oracle 25).outs_at_pitching_change + 3 < 27 →
        ∃ m, (coreG false oracle m).current_pitcher = 3) := by
  refine ⟨?_, false_switch_at_25 oracle, ?_, false_bullpen_exists oracle⟩
  · intro n
    constructor
    · intro h2
      by_contra hgt
      exact (false_after_25 oracle n (by omega)).1 h2
    · intro hle
      exact (false_before_25 oracle n hle).1
  · intro n hne h3
    have h := false_bullpen_moment oracle n hne h3
    exact ⟨h.1, h.2.1⟩

theorem C3_witness :
    ((coreG false oracleA 25).current_pitcher = 1 ∧
      (coreG false oracleA 25).outs_at_pitching_change = (coreG false oracleA 24).outs) ∧
      ∃ m, (coreG false oracleA m).current_pitcher = 3 := by
  refine ⟨(C3_starter_first_rotation oracleA).2.1, ?_⟩
  exact (C3_starter_first_rotation oracleA).2.2.2 ⟨28, by decide⟩ (by decide)

/-- C4 counterexample: in the all-strikeout opener-first run the game ends
at exactly 27 plate appearances, so the cumulative count never exceeds 27
and the bridge-to-bullpen switch never occurs — the switch to role 3 does
not happen in every opener-first run. -/
theorem C4_counterexample : terminates true constK ∧ ¬ entersBullpen true constK := by
  refine ⟨⟨27, by decide⟩, ?_⟩
  rintro ⟨m, hm⟩
  exact constK_true_no_bullpen m hm

/-- C4 (amended): in every opener-first run role 1 starts active, is active
only while the out count is at most 3 (and resolves plate appearances only
with at most 2 outs on the board), and is never re-entered once left; any
switch from role 1 to role 2 happens exactly at out count 3; any switch into
role 3 happens at a cumulative plate-appearance count above 27; in every
terminating run role 1 is relieved at the first moment the out count reaches
3; and in every terminating run whose plate-appearance count exceeds 27 the
bullpen eventually becomes active (in a 27-plate-appearance all-out run it
never does). -/
theorem C4_opener_first_rotation (oracle : ℕ → Outcome) :
    (coreG true oracle 0).current_pitcher = 1 ∧
      (∀ n, (coreG true oracle n).current_pitcher = 1 → (coreG true oracle n).outs ≤ 3) ∧
      (∀ n, (coreG true oracle (n + 1)).current_pitcher = 1 → (coreG true oracle n).outs ≤ 2) ∧
      (∀ n k, (coreG true oracle n).current_pitcher ≠ 1 →
        (coreG true oracle (n + k)).current_pitcher ≠ 1) ∧
      (∀ n, (coreG true oracle n).current_pitcher = 1 →
        (coreG true oracle (n + 1)).current_pitcher = 2 → (coreG true oracle n).outs = 3) ∧
      (∀ n, (coreG true oracle n).current_pitcher ≠ 3 →
        (coreG true oracle (n + 1)).current_pitcher = 3 →
        27 < (coreG true oracle (n + 1)).total_plate_apps) ∧
      (terminates true oracle → ∃ n, (coreG true oracle n).current_pitcher = 1 ∧
        (coreG true oracle n).outs = 3 ∧ (coreG true oracle (n + 1)).current_pitcher ≠ 1) ∧
      (terminates true oracle → (∃ n, 27 < (coreG true oracle n).total_plate_apps) →
        ∃ m, (coreG true oracle m).current_pitcher = 3) :=
  ⟨rfl, true_opener_outs_le oracle, true_opener_resolver oracle,
    fun n k h => true_no_reenter oracle n h k, true_bridge_moment oracle,
    fun n hne h3 => (true_bullpen_moment oracle n hne h3).1,
    true_opener_leave_exists oracle, true_bullpen_exists oracle⟩

theorem C4_witness :
    (∃ n, (coreG true oracleA n).current_pitcher = 1 ∧ (coreG true oracleA n).outs = 3 ∧
      (coreG true oracleA (n + 1)).current_pitcher ≠ 1) ∧
      ∃ m, (coreG true oracleA m).current_pitcher = 3 :=
  ⟨(C4_opener_first_rotation oracleA).2.2.2.2.2.2.1 ⟨28, by decide⟩,
    (C4_opener_first_rotation oracleA).2.2.2.2.2.2.2 ⟨28, by decide⟩ ⟨28, by decide⟩⟩

/-- C10: there is an outcome sequence — all strikeouts, so in particular
each of the first 24 plate appearances resolves to `k` or `oip` — under
which the starter-first game terminates with the bullpen (role 3) never
active, and role 1 is still the active pitcher when the game ends. -/
theorem C10_bullpen_can_be_skipped :
    ∃ oracle : ℕ → Outcome, terminates false oracle ∧ ¬ entersBullpen false oracle ∧
      ∃ n, (coreG false oracle n).outs = 27 ∧ (coreG false oracle n).current_pitcher = 1 := by
  refine ⟨constK, ⟨27, by decide⟩, ?_, 27, by decide, by decide⟩
  rintro ⟨m, hm⟩
  exact constK_false_no_bullpen m hm

/-- C5: for every input and trial count `N ≥ 1`, when all `N` games finish,
`simulation` accumulates the per-game runs grids element-wise, divides by
`N`, and returns the grand total of the averaged grid — which equals `1/N`
times the sum of the per-game runs-grid totals. -/
theorem C5_simulation_returns_average (pitchers hitters : ℕ → Profile) (uo : Bool)
    (oracles : ℕ → ℕ → Outcome) (fuel : ℕ) (rcs : ℕ → ℕ → ℕ → ℝ) (pas : ℕ → ℕ → ℕ → ℕ)
    (N : ℕ) (hN : 1 ≤ N)
    (h : ∀ i, i < N → sim_game pitchers hitters uo (oracles i) fuel = some (rcs i, pas i)) :
    simulation pitchers hitters uo oracles fuel N =
      some ((∑ i ∈ Finset.range N, gridTotal (rcs i)) / N) :=
  simulation_eq pitchers hitters uo oracles fuel rcs pas N h

theorem C5_witness :
    simulation (fun _ => onesProfile) (fun _ => onesProfile) false (fun _ => constK) 27 1 =
      some ((∑ i ∈ Finset.range 1, gridTotal
        ((fullG false (fun _ => onesProfile) (fun _ => onesProfile)
          constK 27).sim_rc_per_hitter_per_inning)) / ((1 : ℕ) : ℝ)) := by
  refine C5_simulation_returns_average (fun _ => onesProfile) (fun _ => onesProfile) false
    (fun _ => constK) 27
    (fun _ => (fullG false (fun _ => onesProfile) (fun _ => onesProfile)
      constK 27).sim_rc_per_hitter_per_inning)
    (fun _ => (coreG false constK 27).sim_pa_per_hitter_per_inning) 1 (by omega) ?_
  intro i hi
  exact sim_game_eq (fun _ => onesProfile) (fun _ => onesProfile) false constK 27 (by decide)

/-- C9 counterexample: two single-trial inputs that differ only in the
outcome stream give `simulation` the same return value although their
averaged appearance grids differ — the averaged grids are therefore not
available to the caller through `simulation`. -/
theorem C9_counterexample :
    simulation (fun _ => onesProfile) (fun _ => onesProfile) false (fun _ => oracleA) 28 1 =
      simulation (fun _ => onesProfile) (fun _ => onesProfile) false (fun _ => oracleB) 28 1 ∧
      sim_pa_df (fun _ => onesProfile) (fun _ => onesProfile) false (fun _ => oracleA) 28 1 ≠
        sim_pa_df (fun _ => onesProfile) (fun _ => onesProfile) false (fun _ => oracleB) 28 1 := by
  constructor
  · rw [simulation_eq (fun _ => onesProfile) (fun _ => onesProfile) false (fun _ => oracleA) 28
      (fun _ => (fullG false (fun _ => onesProfile) (fun _ => onesProfile)
        oracleA 28).sim_rc_per_hitter_per_inning)
      (fun _ => (coreG false oracleA 28).sim_pa_per_hitter_per_inning) 1
      (fun i hi => sim_game_eq (fun _ => onesProfile) (fun _ => onesProfile) false oracleA 28
        (by decide)),
      simulation_eq (fun _ => onesProfile) (fun _ => onesProfile) false (fun _ => oracleB) 28
      (fun _ => (fullG false (fun _ => onesProfile) (fun _ => onesProfile)
        oracleB 28).sim_rc_per_hitter_per_inning)
      (fun _ => (coreG false oracleB 28).sim_pa_per_hitter_per_inning) 1
      (fun i hi => sim_game_eq (fun _ => onesProfile) (fun _ => onesProfile) false oracleB 28
        (by decide))]
    have hA28 : (coreG false oracleA 28).total_plate_apps = 28 := by decide
    have hB28 : (coreG false oracleB 28).total_plate_apps = 28 := by decide
    refine congrArg some ?_
    show (∑ i ∈ Finset.range 1, gridTotal ((fullG false (fun _ => onesProfile)
        (fun _ => onesProfile) oracleA 28).sim_rc_per_hitter_per_inning)) / ((1 : ℕ) : ℝ) =
      (∑ i ∈ Finset.range 1, gridTotal ((fullG false (fun _ => onesProfile)
        (fun _ => onesProfile) oracleB 28).sim_rc_per_hitter_per_inning)) / ((1 : ℕ) : ℝ)
    rw [Finset.sum_range_one, Finset.sum_range_one, fullG_rc_total, fullG_rc_total, hA28, hB28]
  · intro heq
    have hA := trialSums_eq (fun _ => onesProfile) (fun _ => onesProfile) false (fun _ => oracleA)
      28
      (fun _ => (fullG false (fun _ => onesProfile) (fun _ => onesProfile)
        oracleA 28).sim_rc_per_hitter_per_inning)
      (fun _ => (coreG false oracleA 28).sim_pa_per_hitter_per_inning) 1
      (fun i hi => sim_game_eq (fun _ => onesProfile) (fun _ => onesProfile) false oracleA 28
        (by decide))
    have hB := trialSums_eq (fun _ => onesProfile) (fun _ => onesProfile) false (fun _ => oracleB)
      28
      (fun _ => (fullG false (fun _ => onesProfile) (fun _ => onesProfile)
        oracleB 28).sim_rc_per_hitter_per_inning)
      (fun _ => (coreG false oracleB 28).sim_pa_per_hitter_per_inning) 1
      (fun i hi => sim_game_eq (fun _ => onesProfile) (fun _ => onesProfile) false oracleB 28
        (by decide))
    have heqA : sim_pa_df (fun _ => onesProfile) (fun _ => onesProfile) false
        (fun _ => oracleA) 28 1 =
        some (fun i j => ((∑ k ∈ Finset.range 1,
          (coreG false oracleA 28).sim_pa_per_hitter_per_inning i j : ℕ) : ℝ) /
            ((1 : ℕ) : ℝ)) := by
      unfold sim_pa_df
      rw [hA]
    have heqB : sim_pa_df (fun _ => onesProfile) (fun _ => onesProfile) false
        (fun _ => oracleB) 28 1 =
        some (fun i j => ((∑ k ∈ Finset.range 1,
          (coreG false oracleB 28).sim_pa_per_hitter_per_inning i j : ℕ) : ℝ) /
            ((1 : ℕ) : ℝ)) := by
      unfold sim_pa_df
      rw [hB]
    rw [heqA, heqB] at heq
    have hfun := Option.some.inj heq
    have h04 := congrFun (congrFun hfun 0) 4
    have hA04 : (coreG false oracleA 28).sim_pa_per_hitter_per_inning 0 4 = 1 := by decide
    have hB04 : (coreG false oracleB 28).sim_pa_per_hitter_per_inning 0 4 = 0 := by decide
    rw [Finset.sum_range_one, Finset.sum_range_one] at h04
    rw [hA04, hB04] at h04
    norm_num at h04

/-- C9 (amended): `simulation` computes the averaged grids internally but
returns only the scalar grand total of the averaged runs grid `sim_rc_df`;
the averaged appearance grid is not part of the return value (the diagnostic
print in the source is commented out). -/
theorem C9_returns_scalar_only (pitchers hitters : ℕ → Profile) (uo : Bool)
    (oracles : ℕ → ℕ → Outcome) (fuel sample_size : ℕ) :
    simulation pitchers hitters uo oracles fuel sample_size =
      Option.map gridTotal (sim_rc_df pitchers hitters uo oracles fuel sample_size) := by
  unfold simulation sim_rc_df
  cases trialSums pitchers hitters uo oracles fuel sample_size with
  | none => rfl
  | some s => rfl
